import Mathlib

/-!
# Verification of the `symmetric-concurrent-v4` paged storage engine core

Shallow embedding of the repository's storage layer:

* `src/src/storage/buffer/fs.rs` — byte-level file API (`write_bytes`,
  `append_bytes`, `read_bytes`), modelled on a file represented as a
  `List Byte`.
* `src/src/storage/buffer/diskmgr.rs` — the disk manager (`DiskMgrCtx`,
  `write_page`, `append_page`, `read_page`) with its counters.
* `src/src/storage/buffer/io.rs` — `to_buffer` / `from_buffer` page codecs.
* `src/src/storage/buffer/bufmgr.rs` — the buffer pool (`create`,
  `alloc_page`; the remaining operations are `todo!()` in the source and are
  modelled from the spec where a claim needs them).
* `src/src/storage/buffer/lruk.rs` — only a trait declaration exists in the
  source; the LRU-K eviction algorithm is modelled from the spec.

Machine integers (`usize`, `isize`, `u64`) are modelled as `Nat`/`Int`; all
quantities involved (file lengths, counters, page ids) are small enough that
no wrap-around can occur on 64-bit targets, so no explicit modulus is taken.
-/

namespace StorageCore

/-- A byte. Values are 0..255; arithmetic never overflows a byte here. -/
abbrev Byte := Nat

/-- `PAGE_SIZE` from `src/src/shared/mod.rs`. -/
def PAGE_SIZE : Nat := 4096

/-- `BUFFER_POOL_SIZE` from `src/src/shared/mod.rs`. -/
def BUFFER_POOL_SIZE : Nat := 50

/-- `INVALID_PAGE_ID` from `src/src/shared/mod.rs`. -/
def INVALID_PAGE_ID : Int := -1

/-! ## File model (`fs.rs`)

The backing file is a `List Byte`.  `seek(SeekFrom::Start off)` succeeds for
any offset; writing past the end of file produces a hole that the OS
zero-fills, which the model realises by padding with zero bytes. -/

/-- `fs::write_bytes(handle, bytes, offset)`: seek to `offset`, write the
buffer there (zero-padding any hole between the old EOF and `offset`). -/
def write_bytes (file : List Byte) (bytes : List Byte) (offset : Nat) :
    List Byte :=
  (file ++ List.replicate (offset - file.length) 0).take offset ++ bytes ++
    (file ++ List.replicate (offset - file.length) 0).drop (offset + bytes.length)

/-- `fs::append_bytes(handle, bytes)`: the page id is
`file_length / PAGE_SIZE`, computed from the metadata before writing; the
buffer is then written at end of file.  Returns the new file and the id. -/
def append_bytes (file : List Byte) (bytes : List Byte) :
    List Byte × Int :=
  (file ++ bytes, ((file.length / PAGE_SIZE : Nat) : Int))

/-- `fs::read_bytes(handle, buffer, offset)`: seek to `offset` and issue a
single `read` into the buffer.  `read` returns the number of bytes actually
available (possibly fewer than the buffer size, zero at or past EOF) and
that is not an error; bytes of the buffer beyond those read keep their prior
contents.  The result is the buffer's contents after the call. -/
def read_bytes (file : List Byte) (buffer : List Byte) (offset : Nat) :
    List Byte :=
  (file.drop offset).take buffer.length ++
    buffer.drop ((file.drop offset).take buffer.length).length

/-! ## Disk manager model (`diskmgr.rs`)

`DiskMgrCtx` holds the counters and the open handle; the handle's contents
are the `file` field.  Operations that can fail are modelled with explicit
fault flags: a flag is `true` when the corresponding OS call succeeds.  The
returned `Bool` is `true` exactly when the Rust function returns `Ok`. -/

structure DiskMgrCtx where
  num_writes : Nat
  last_write : Int
  num_flushes : Nat
  file : List Byte
  deriving Repr, DecidableEq

/-- `DiskMgr::create(path)`: open with `truncate(true)` (empty file),
counters zero, `last_write = -1`. -/
def DiskMgr.create : DiskMgrCtx :=
  { num_writes := 0, last_write := -1, num_flushes := 0, file := [] }

/-- `DiskMgr::write_page(buf, loc)` with fault flags: `writeOk` is the
seek+write step (`fs::write_bytes`), `syncOk` is `handle.sync_all()`.
Returns the context after the call and whether the call returned `Ok`.
Mirrors the statement order of the source: the write, then
`num_writes += 1`, then the flush, then `num_flushes += 1`, then
`last_write = loc`. -/
def DiskMgr.write_pageF (writeOk syncOk : Bool) (ctx : DiskMgrCtx)
    (buf : List Byte) (loc : Nat) : DiskMgrCtx × Bool :=
  if writeOk then
    if syncOk then
      ({ ctx with file := write_bytes ctx.file buf (loc * PAGE_SIZE)
                  num_writes := ctx.num_writes + 1
                  num_flushes := ctx.num_flushes + 1
                  last_write := (loc : Int) }, true)
    else
      ({ ctx with file := write_bytes ctx.file buf (loc * PAGE_SIZE)
                  num_writes := ctx.num_writes + 1 }, false)
  else (ctx, false)

/-- `DiskMgr::write_page` on the fault-free path. -/
def DiskMgr.write_page (ctx : DiskMgrCtx) (buf : List Byte) (loc : Nat) :
    DiskMgrCtx :=
  (DiskMgr.write_pageF true true ctx buf loc).1

/-- `DiskMgr::append_page(buf)` with fault flags: `writeOk` covers the
seek-to-end and write inside `fs::append_bytes`, `syncOk` covers
`handle.sync_all()`.  Returns the context, the page id when the call
returned `Ok`, and the success flag. -/
def DiskMgr.append_pageF (writeOk syncOk : Bool) (ctx : DiskMgrCtx)
    (buf : List Byte) : DiskMgrCtx × Option Int :=
  if writeOk then
    if syncOk then
      ({ ctx with file := (append_bytes ctx.file buf).1
                  num_writes := ctx.num_writes + 1
                  num_flushes := ctx.num_flushes + 1
                  last_write := (append_bytes ctx.file buf).2 },
       some (append_bytes ctx.file buf).2)
    else
      ({ ctx with file := (append_bytes ctx.file buf).1
                  num_writes := ctx.num_writes + 1 }, none)
  else (ctx, none)

/-- `DiskMgr::append_page` on the fault-free path. -/
def DiskMgr.append_page (ctx : DiskMgrCtx) (buf : List Byte) :
    DiskMgrCtx × Int :=
  let r := DiskMgr.append_pageF true true ctx buf
  (r.1, r.2.getD (-1))

/-- `DiskMgr::read_page(buf, loc)` with fault flags for the seek and the
read; neither fails merely because `loc * PAGE_SIZE` is at or past EOF.
Returns `some` of the buffer contents after the call on success, `none` on
an I/O error.  The context (counters, file) is never modified. -/
def DiskMgr.read_pageF (seekOk readOk : Bool) (ctx : DiskMgrCtx)
    (buf : List Byte) (loc : Nat) : Option (List Byte) :=
  if seekOk then
    if readOk then some (read_bytes ctx.file buf (loc * PAGE_SIZE))
    else none
  else none

/-- `page::empty()` from `page.rs`. -/
def Page.empty : List Byte := List.replicate PAGE_SIZE 0

/-- `BufferPool::alloc_page` acting on the disk manager state: appends an
empty page and returns the new id. -/
def BufferPool.alloc_page (ctx : DiskMgrCtx) : DiskMgrCtx × Int :=
  DiskMgr.append_page ctx Page.empty

/-- Run a sequence of `append_page` calls, one per buffer in `bufs`,
collecting the returned page ids in call order.  An `alloc_page` call is
the instance whose buffer is `page::empty()` (see
`BufferPool.alloc_page`), so a list of buffers represents an arbitrary
interleaving of `alloc_page` and direct `append_page` calls. -/
def runAppends : List (List Byte) → DiskMgrCtx → DiskMgrCtx × List Int
  | [], ctx => (ctx, [])
  | buf :: bufs, ctx =>
    let r := DiskMgr.append_page ctx buf
    let rest := runAppends bufs r.1
    (rest.1, r.2 :: rest.2)

/-! ## Page codec (`io.rs` and the external `bincode` collaborator)

`io::to_buffer` encodes an item and copies the encoding into the front of a
zeroed `PAGE_SIZE` buffer; `io::from_buffer` hands the whole buffer to
`decode`.  The generic `bincode` encode/decode pair is an external
collaborator, specified at its interface boundary only. -/

/-- Result of `io::to_buffer`.  The source computes
`buf[..size_of_val(&*encoded)].copy_from_slice(&*encoded)` where the slice
bound equals `encoded.len()`; when that exceeds `PAGE_SIZE` the slice
indexing `buf[..len]` panics instead of returning `None`. -/
inductive ToBufferResult where
  | ok (buf : List Byte)
  | encodeFailed
  | panicked
  deriving Repr, DecidableEq

/-- `io::to_buffer`, applied to the result of `encode` (`none` models a
`bincode` serialization failure).  On the `Some` path the source zero-fills
a `PAGE_SIZE` array and copies the encoding over its prefix; if the
encoding is longer than `PAGE_SIZE` the slice `buf[..encoded.len()]` is out
of bounds and the call panics. -/
def to_buffer (encoded : Option (List Byte)) : ToBufferResult :=
  match encoded with
  | none => ToBufferResult.encodeFailed
  | some e =>
    if e.length ≤ PAGE_SIZE then
      ToBufferResult.ok (e ++ List.replicate (PAGE_SIZE - e.length) 0)
    else ToBufferResult.panicked

/-- The `Song` record from `src/src/shared/mod.rs`: an `i32` id and two
50-byte fixed arrays. -/
structure Song where
  id : Int
  title : List Byte
  artist : List Byte
  deriving Repr, DecidableEq

/-- Little-endian 4-byte encoding of an `i32` (two's complement). -/
def i32ToLe (v : Int) : List Byte :=
  [(v % 4294967296).toNat % 256,
   (v % 4294967296).toNat / 256 % 256,
   (v % 4294967296).toNat / 65536 % 256,
   (v % 4294967296).toNat / 16777216 % 256]

/-- Decode a little-endian 4-byte two's-complement `i32`. -/
def leToI32 (b0 b1 b2 b3 : Nat) : Int :=
  if b0 + 256 * b1 + 65536 * b2 + 16777216 * b3 < 2147483648 then
    ((b0 + 256 * b1 + 65536 * b2 + 16777216 * b3 : Nat) : Int)
  else ((b0 + 256 * b1 + 65536 * b2 + 16777216 * b3 : Nat) : Int) - 4294967296

/-- Modelled from the spec: the external `serialize` collaborator
(`bincode::serialize`, not part of this repository) applied to `Song` —
fixed-int encoding lays out the `i32` id little-endian followed by the two
50-byte arrays, 104 bytes in all. -/
def encodeSong (s : Song) : List Byte :=
  i32ToLe s.id ++ s.title ++ s.artist

/-- Modelled from the spec: the external `deserialize` collaborator
(`bincode::deserialize`, not part of this repository) for `Song` — reads
the 104-byte record prefix and, per the spec's interface contract,
tolerates (ignores) any trailing padding bytes.  Fails when fewer than 104
bytes are available. -/
def decodeSong (bytes : List Byte) : Option Song :=
  if 104 ≤ bytes.length then
    some { id := leToI32 (bytes.getD 0 0) (bytes.getD 1 0) (bytes.getD 2 0)
                   (bytes.getD 3 0)
           title := (bytes.drop 4).take 50
           artist := (bytes.drop 54).take 50 }
  else none

/-- `io::from_buffer` for `Song`: passes the whole `PAGE_SIZE` buffer
(trailing padding included) to `decode`. -/
def from_buffer (buf : List Byte) : Option Song :=
  decodeSong buf

theorem append_page_file (ctx : DiskMgrCtx) (buf : List Byte) :
    (DiskMgr.append_page ctx buf).1.file = ctx.file ++ buf ∧
    (DiskMgr.append_page ctx buf).2 = ((ctx.file.length / PAGE_SIZE : Nat) : Int) := by
  simp [DiskMgr.append_page, DiskMgr.append_pageF, append_bytes]

theorem runAppends_ids (bufs : List (List Byte)) :
    ∀ (n : Nat) (ctx : DiskMgrCtx), ctx.file.length = n * PAGE_SIZE →
      (∀ b ∈ bufs, b.length = PAGE_SIZE) →
      (runAppends bufs ctx).2
        = (List.range bufs.length).map (fun i => ((n + i : Nat) : Int)) := by
  induction bufs with
  | nil => intro n ctx h hb; simp [runAppends]
  | cons buf bufs ih =>
    intro n ctx h hb
    have hbuf : buf.length = PAGE_SIZE := hb buf (List.mem_cons_self _ _)
    have hfile : (DiskMgr.append_page ctx buf).1.file.length
        = (n + 1) * PAGE_SIZE := by
      rw [(append_page_file ctx buf).1]
      simp [h, hbuf, Nat.succ_mul]
    have hid : (DiskMgr.append_page ctx buf).2 = ((n : Nat) : Int) := by
      rw [(append_page_file ctx buf).2]
      simp [h, Nat.mul_div_cancel _ (by decide : 0 < PAGE_SIZE)]
    have hbrest : ∀ b ∈ bufs, b.length = PAGE_SIZE :=
      fun b hbm => hb b (List.mem_cons_of_mem _ hbm)
    simp only [runAppends, hid, ih (n + 1) _ hfile hbrest, List.length_cons,
      List.range_succ_eq_map, List.map_map, List.map_cons, Function.comp]
    congr 1
    exact List.map_congr_left fun a _ => by simp [Function.comp]; omega

/-- C1: on a freshly created file, every sequence of `alloc_page` /
`append_page` calls — each call appending an arbitrary page-sized buffer,
with `alloc_page` being the call whose buffer is `page::empty()` — returns
exactly the page ids `0, 1, 2, …` in call order: gap-free and
monotonically increasing, each id computed as `file_length / PAGE_SIZE`
before the write extends the file by one page (and deletion never touches
the file, so deleted ids are never reused). -/
theorem C1_monotonic_allocation (bufs : List (List Byte))
    (hb : ∀ b ∈ bufs, b.length = PAGE_SIZE) :
    (runAppends bufs DiskMgr.create).2
        = (List.range bufs.length).map (fun (i : Nat) => (i : Int)) ∧
    ∀ ctx : DiskMgrCtx,
      BufferPool.alloc_page ctx = DiskMgr.append_page ctx Page.empty := by
  refine ⟨?_, fun ctx => rfl⟩
  have h := runAppends_ids bufs 0 DiskMgr.create (by simp [DiskMgr.create]) hb
  simp only [Nat.zero_add] at h
  exact h

/-- C1 witness: a mixed run — an `alloc_page`-style empty page, an
arbitrary record page, then another empty page — returns ids 0, 1, 2. -/
theorem C1_monotonic_allocation_witness :
    (runAppends [Page.empty, List.replicate PAGE_SIZE 7, Page.empty]
        DiskMgr.create).2
        = (List.range
            [Page.empty, List.replicate PAGE_SIZE 7, Page.empty].length).map
            (fun (i : Nat) => (i : Int)) ∧
    ∀ ctx : DiskMgrCtx,
      BufferPool.alloc_page ctx = DiskMgr.append_page ctx Page.empty :=
  C1_monotonic_allocation [Page.empty, List.replicate PAGE_SIZE 7, Page.empty]
    (by
      intro b hbm
      rcases List.mem_cons.mp hbm with rfl | hbm
      · exact List.length_replicate _ _
      rcases List.mem_cons.mp hbm with rfl | hbm
      · exact List.length_replicate _ _
      rcases List.mem_cons.mp hbm with rfl | hbm
      · exact List.length_replicate _ _
      · exact absurd hbm (List.not_mem_nil _))

/-! ## LRU-K replacer

`lruk.rs` declares only the `Replacer` trait (`evict`, `record_access`)
over a state holding `num_frames` and `k`; the eviction algorithm itself is
not implemented in the source, so it is modelled from the spec, §4.3. -/

/-- Per-frame replacer state: the frame id, the access history (most
recent timestamp first, at most the K most recent retained) and the
evictable flag. -/
structure FrameEntry where
  fid : Int
  history : List Nat
  evictable : Bool
  deriving Repr, DecidableEq

/-- Modelled from the spec: `record_access(frame_id)` appends the current
logical timestamp to the frame's history, retaining at most the most
recent K entries. -/
def FrameEntry.recordAccess (k ts : Nat) (e : FrameEntry) : FrameEntry :=
  { e with history := (ts :: e.history).take k }

/-- Modelled from the spec: the victim-selection key, compared
lexicographically, smaller evicted first.  A frame with fewer than K
recorded accesses has k-distance = +∞ and is preferred over any frame with
a finite k-distance (first component 0 versus 1); among +∞ frames the
oldest single most-recent access wins; among finite frames the largest
k-distance, i.e. the smallest K-th-most-recent timestamp, wins; ties are
broken by lowest frame id. -/
def lruKey (k : Nat) (e : FrameEntry) : Nat × Nat × Int :=
  if e.history.length < k then (0, e.history.headD 0, e.fid)
  else (1, e.history.getD (k - 1) 0, e.fid)

/-- Strict lexicographic comparison of two victim-selection keys. -/
def lruKeyLt (a b : Nat × Nat × Int) : Bool :=
  a.1 < b.1 ||
    (a.1 == b.1 &&
      (a.2.1 < b.2.1 || (a.2.1 == b.2.1 && a.2.2 < b.2.2)))

/-- One step of the victim scan: keep the better (strictly smaller-key)
candidate, preferring the earlier one on equal keys. -/
def evictStep (k : Nat) (acc : Option FrameEntry) (e : FrameEntry) :
    Option FrameEntry :=
  match acc with
  | none => some e
  | some c => if lruKeyLt (lruKey k e) (lruKey k c) then some e else some c

/-- Modelled from the spec: `evict()` selects, among the frames currently
marked evictable, the frame with the least victim-selection key; returns
`none` when no frame is evictable. -/
def evict (k : Nat) (frames : List FrameEntry) : Option FrameEntry :=
  (frames.filter (fun e => e.evictable)).foldl (evictStep k) none

/-! ## Buffer pool

`bufmgr.rs` implements `create`, `size` and `alloc_page`; `new_page`,
`fetch_page`, `unpin_page`, `flush_page`, `flush_all` and `delete_page`
are `todo!()` stubs in the source, so their behavior is modelled from the
spec, §4.4 and §7. -/

/-- A buffer-pool frame (`BufferPoolFrameInternal`): page contents, frame
id, pin count and dirty flag. -/
structure PoolFrame where
  page : List Byte
  id : Int
  pin_count : Nat
  dirty : Bool
  deriving Repr, DecidableEq

/-- The structural buffer-pool state (`BufferPoolContext`): the frame
vector, the FIFO free list of frame ids (front = next handed out), and
the page table as an association list `(page id, frame id)`. -/
structure PoolState where
  frames : List PoolFrame
  free_list : List Int
  page_table : List (Int × Int)
  deriving Repr, DecidableEq

/-- Page-table lookup (`page_table.get(&page_id)`). -/
def lookupPT (pt : List (Int × Int)) (pid : Int) : Option Int :=
  (pt.find? (fun e => e.1 == pid)).map (fun e => e.2)

/-- The frame with the given id, if present. -/
def findFrame (s : PoolState) (fid : Int) : Option PoolFrame :=
  s.frames.find? (fun f => f.id == fid)

/-- Pin count of the frame with the given id (0 if absent). -/
def pinOf (s : PoolState) (fid : Int) : Nat :=
  ((findFrame s fid).map (fun f => f.pin_count)).getD 0

/-- Replace the frame with id `f.id`, or add it if absent. -/
def setFrame (frames : List PoolFrame) (f : PoolFrame) : List PoolFrame :=
  if frames.any (fun g => g.id == f.id) then
    frames.map (fun g => if g.id == f.id then f else g)
  else frames ++ [f]

/-- `BufferPool::create`: empty frame vector, empty page table, and a free
list holding the frame ids 1 through `BUFFER_POOL_SIZE` pushed back in
order. -/
def initPool : PoolState :=
  { frames := []
    free_list := (List.range BUFFER_POOL_SIZE).map (fun (i : Nat) => (i : Int) + 1)
    page_table := [] }

/-- Modelled from the spec: `unpin_page(page_id, was_dirtied)` — fails and
leaves the pool unchanged when the page is not resident or its pin count
is already zero; otherwise decrements the pin count and ORs the sticky
dirty flag. -/
def unpin_page (pid : Int) (wasDirtied : Bool) (s : PoolState) :
    PoolState × Bool :=
  match lookupPT s.page_table pid with
  | none => (s, false)
  | some fid =>
    if pinOf s fid = 0 then (s, false)
    else
      ({ s with frames := s.frames.map (fun f =>
          if f.id == fid then
            { f with pin_count := f.pin_count - 1
                     dirty := f.dirty || wasDirtied }
          else f) }, true)

/-- Modelled from the spec: `flush_page(page_id)` — returns `false` and
leaves the pool unchanged when the page is not resident; otherwise writes
the frame to disk and clears the dirty flag. -/
def flush_page (pid : Int) (s : PoolState) : PoolState × Bool :=
  match lookupPT s.page_table pid with
  | none => (s, false)
  | some fid =>
    ({ s with frames := s.frames.map (fun f =>
        if f.id == fid then { f with dirty := false } else f) }, true)

/-- Modelled from the spec: `delete_page(page_id)` — returns `false` and
leaves the pool unchanged when the page is not resident or still pinned;
otherwise removes the page-table entry, resets the frame, and pushes its
frame id onto the back of the free list. -/
def delete_page (pid : Int) (s : PoolState) : PoolState × Bool :=
  match lookupPT s.page_table pid with
  | none => (s, false)
  | some fid =>
    if 0 < pinOf s fid then (s, false)
    else
      ({ frames := s.frames.map (fun f =>
           if f.id == fid then { f with page := [], pin_count := 0,
                                        dirty := false }
           else f)
         free_list := s.free_list ++ [fid]
         page_table := s.page_table.filter (fun e => ¬ e.1 == pid) }, true)

/-- Modelled from the spec: a `fetch_page` hit — increments the pin count
of the resident frame; the page table and free list are untouched. -/
def fetch_page_hit (pid : Int) (s : PoolState) : PoolState :=
  match lookupPT s.page_table pid with
  | none => s
  | some fid =>
    { s with frames := s.frames.map (fun f =>
        if f.id == fid then { f with pin_count := f.pin_count + 1 } else f) }

/-- Modelled from the spec: `new_page`/`fetch_page` acquiring the frame at
the head of the free list for the fresh/missed page `pid`. -/
def acquireFrameFree (s : PoolState) (pid fid : Int) (rest : List Int)
    (page : List Byte) : PoolState :=
  { frames := setFrame s.frames { page := page, id := fid, pin_count := 1,
                                  dirty := false }
    free_list := rest
    page_table := (pid, fid) :: s.page_table }

/-- Modelled from the spec: `new_page`/`fetch_page` acquiring a frame via
the replacer when the free list is empty — the victim frame `fid`, which
currently holds page `oldPid`, is flushed if dirty, its old mapping is
removed, and the new mapping is inserted. -/
def acquireFrameEvict (s : PoolState) (pid oldPid fid : Int)
    (page : List Byte) : PoolState :=
  { frames := setFrame s.frames { page := page, id := fid, pin_count := 1,
                                  dirty := false }
    free_list := s.free_list
    page_table := (pid, fid) :: s.page_table.filter (fun e => ¬ e.1 == oldPid) }

/-- The pool states reachable from `BufferPool::create` by the pool
operations (the mutating operations are modelled from the spec; the victim
choice of the replacer is nondeterministic but always a currently mapped
frame). -/
inductive Reachable : PoolState → Prop where
  | create : Reachable initPool
  | newPageFree (s : PoolState) (pid fid : Int) (rest : List Int)
      (page : List Byte) : Reachable s → s.free_list = fid :: rest →
      lookupPT s.page_table pid = none →
      Reachable (acquireFrameFree s pid fid rest page)
  | newPageEvict (s : PoolState) (pid oldPid fid : Int) (page : List Byte) :
      Reachable s → s.free_list = [] → (oldPid, fid) ∈ s.page_table →
      lookupPT s.page_table pid = none →
      Reachable (acquireFrameEvict s pid oldPid fid page)
  | fetchHit (s : PoolState) (pid : Int) : Reachable s →
      Reachable (fetch_page_hit pid s)
  | unpinPage (s : PoolState) (pid : Int) (b : Bool) : Reachable s →
      Reachable (unpin_page pid b s).1
  | flushPage (s : PoolState) (pid : Int) : Reachable s →
      Reachable (flush_page pid s).1
  | deletePage (s : PoolState) (pid : Int) : Reachable s →
      Reachable (delete_page pid s).1

/-- The free-list/page-table invariant: no duplicate free ids, ids in
range, unique page-table keys and values, frame values in range, and a
frame id in range is free iff it is not mapped. -/
def PoolInv (s : PoolState) : Prop :=
  s.free_list.Nodup ∧
  (∀ fid ∈ s.free_list, 1 ≤ fid ∧ fid ≤ (BUFFER_POOL_SIZE : Int)) ∧
  (s.page_table.map Prod.fst).Nodup ∧
  (s.page_table.map Prod.snd).Nodup ∧
  (∀ e ∈ s.page_table, 1 ≤ e.2 ∧ e.2 ≤ (BUFFER_POOL_SIZE : Int)) ∧
  (∀ fid : Int, 1 ≤ fid → fid ≤ (BUFFER_POOL_SIZE : Int) →
    (fid ∈ s.free_list ↔ ¬ ∃ p, (p, fid) ∈ s.page_table))

/-- A concrete pool with one resident, pinned page: page 0 in frame 1
with pin count 1. -/
def pinnedPool : PoolState :=
  { frames := [{ page := [], id := 1, pin_count := 1, dirty := false }]
    free_list := (List.range (BUFFER_POOL_SIZE - 1)).map (fun (i : Nat) => (i : Int) + 2)
    page_table := [(0, 1)] }

/-! ## Disk-manager locking discipline

The repository's `Synchronized<T>` (its source lies outside `src/`, which
holds only its users) provides `latch`/`unlatch` for the exclusive lock
and `data_ptr`, which hands out a raw pointer to the payload without any
locking.  `DiskApi::inner` (diskmgr.rs:68-70) dereferences `data_ptr`
directly; the traces below record, statement by statement, what each
operation does to the lock and to the protected state. -/

inductive DiskEv where
  | acquire
  | release
  | touch
  deriving Repr, DecidableEq

/-- Events of `DiskApi::read_page`: `self.inner()` (raw `data_ptr`
dereference) and `fs::read_bytes(&inner.handle, …)`.  The source contains
no `latch` call. -/
def read_page_events : List DiskEv := [DiskEv.touch, DiskEv.touch]

/-- Events of `DiskApi::write_page`: `self.inner()`, `fs::write_bytes`,
`num_writes += 1`, `sync_all()`, `num_flushes += 1`, `last_write = loc`.
The source contains no `latch` call. -/
def write_page_events : List DiskEv :=
  [DiskEv.touch, DiskEv.touch, DiskEv.touch, DiskEv.touch, DiskEv.touch,
   DiskEv.touch]

/-- Events of `DiskApi::append_page`: `self.inner()`, `fs::append_bytes`,
`num_writes += 1`, `sync_all()`, `num_flushes += 1`,
`last_write = page_id`.  The source contains no `latch` call. -/
def append_page_events : List DiskEv :=
  [DiskEv.touch, DiskEv.touch, DiskEv.touch, DiskEv.touch, DiskEv.touch,
   DiskEv.touch]

/-- `BufferPool::alloc_page` (bufmgr.rs:128-133) calls
`inner.mgr.append_page(&buf)` holding only the pool's reader lock; it
never latches the disk manager, so its disk-lock trace is exactly
`append_page_events`. -/
def alloc_page_disk_events : List DiskEv := append_page_events

/-- Checks that every `touch` in the trace happens at lock depth > 0,
starting from depth `d`. -/
def touchesLocked : List DiskEv → Nat → Bool
  | [], _ => true
  | DiskEv.acquire :: rest, d => touchesLocked rest (d + 1)
  | DiskEv.release :: rest, d => touchesLocked rest (d - 1)
  | DiskEv.touch :: rest, d => decide (0 < d) && touchesLocked rest d

/-! ## Slice lemmas for the byte-file model -/

theorem write_bytes_drop (file buf : List Byte) (off : Nat) :
    (write_bytes file buf off).drop off =
      buf ++ (file ++ List.replicate (off - file.length) 0).drop
        (off + buf.length) := by
  unfold write_bytes
  rw [List.append_assoc]
  apply List.drop_left'
  simp [List.length_take]
  omega

theorem read_bytes_of_take_eq {file buffer page : List Byte} {off : Nat}
    (h : (file.drop off).take buffer.length = page)
    (hlen : page.length = buffer.length) :
    read_bytes file buffer off = page := by
  unfold read_bytes
  rw [h, hlen, List.drop_length, List.append_nil]

theorem write_page_file (ctx : DiskMgrCtx) (page : List Byte) (loc : Nat) :
    (DiskMgr.write_page ctx page loc).file
      = write_bytes ctx.file page (loc * PAGE_SIZE) := by
  simp [DiskMgr.write_page, DiskMgr.write_pageF]

theorem read_after_write (ctx : DiskMgrCtx) (page initBuf : List Byte)
    (loc : Nat) (hp : page.length = PAGE_SIZE)
    (hB : initBuf.length = PAGE_SIZE) :
    DiskMgr.read_pageF true true (DiskMgr.write_page ctx page loc) initBuf loc
      = some page := by
  have htake :
      (((DiskMgr.write_page ctx page loc).file.drop
        (loc * PAGE_SIZE)).take initBuf.length) = page := by
    rw [write_page_file, write_bytes_drop, hB, ← hp, List.take_left]
  have hread :
      DiskMgr.read_pageF true true (DiskMgr.write_page ctx page loc) initBuf loc
        = some (read_bytes (DiskMgr.write_page ctx page loc).file initBuf
            (loc * PAGE_SIZE)) := by
    simp [DiskMgr.read_pageF]
  rw [hread, read_bytes_of_take_eq htake (by rw [hp, hB])]

/-! ## Round-trip of the modelled `Song` codec -/

theorem byte_digit_sum (u : Nat) (h : u < 4294967296) :
    u % 256 + 256 * (u / 256 % 256) + 65536 * (u / 256 / 256 % 256)
      + 16777216 * (u / 256 / 256 / 256 % 256) = u := by omega

theorem leToI32_i32ToLe (v : Int) (h1 : -2147483648 ≤ v)
    (h2 : v < 2147483648) :
    leToI32 ((v % 4294967296).toNat % 256)
      ((v % 4294967296).toNat / 256 % 256)
      ((v % 4294967296).toNat / 65536 % 256)
      ((v % 4294967296).toNat / 16777216 % 256) = v := by
  have e1 : (v % 4294967296).toNat / 65536
      = (v % 4294967296).toNat / 256 / 256 := by
    rw [Nat.div_div_eq_div_mul]
  have e2 : (v % 4294967296).toNat / 16777216
      = (v % 4294967296).toNat / 256 / 256 / 256 := by
    rw [Nat.div_div_eq_div_mul, Nat.div_div_eq_div_mul]
  have hult : (v % 4294967296).toNat < 4294967296 := by omega
  unfold leToI32
  rw [e1, e2, byte_digit_sum _ hult]
  split <;> omega

theorem decodeSong_encodeSong (s : Song) (pad : Nat)
    (h1 : -2147483648 ≤ s.id) (h2 : s.id < 2147483648)
    (ht : s.title.length = 50) (ha : s.artist.length = 50) :
    decodeSong (encodeSong s ++ List.replicate pad 0) = some s := by
  have hlen4 : (i32ToLe s.id).length = 4 := by simp [i32ToLe]
  have henc : encodeSong s ++ List.replicate pad 0
      = i32ToLe s.id ++ (s.title ++ (s.artist ++ List.replicate pad 0)) := by
    simp [encodeSong]
  rw [henc]
  have hlen : 104 ≤ (i32ToLe s.id ++
      (s.title ++ (s.artist ++ List.replicate pad 0))).length := by
    simp [hlen4, ht, ha]
    omega
  have hdrop4 : (i32ToLe s.id ++
      (s.title ++ (s.artist ++ List.replicate pad 0))).drop 4
      = s.title ++ (s.artist ++ List.replicate pad 0) :=
    List.drop_left' hlen4
  have htitle : ((i32ToLe s.id ++
      (s.title ++ (s.artist ++ List.replicate pad 0))).drop 4).take 50
      = s.title := by
    rw [hdrop4, ← ht, List.take_left]
  have hdrop54 : (i32ToLe s.id ++
      (s.title ++ (s.artist ++ List.replicate pad 0))).drop 54
      = s.artist ++ List.replicate pad 0 := by
    have h54 : (i32ToLe s.id ++ s.title).length = 54 := by simp [hlen4, ht]
    calc (i32ToLe s.id ++ (s.title ++ (s.artist ++ List.replicate pad 0))).drop 54
        = ((i32ToLe s.id ++ s.title) ++ (s.artist ++ List.replicate pad 0)).drop 54 := by
          rw [List.append_assoc]
      _ = s.artist ++ List.replicate pad 0 := List.drop_left' h54
  have hartist : ((i32ToLe s.id ++
      (s.title ++ (s.artist ++ List.replicate pad 0))).drop 54).take 50
      = s.artist := by
    rw [hdrop54, ← ha, List.take_left]
  have hgetD : ∀ n, n < 4 →
      (i32ToLe s.id ++ (s.title ++ (s.artist ++ List.replicate pad 0))).getD n 0
        = (i32ToLe s.id).getD n 0 := by
    intro n hn
    exact List.getD_append _ _ _ _ (by omega)
  unfold decodeSong
  rw [if_pos hlen, htitle, hartist,
    hgetD 0 (by omega), hgetD 1 (by omega), hgetD 2 (by omega),
    hgetD 3 (by omega)]
  have hid : leToI32 ((i32ToLe s.id).getD 0 0) ((i32ToLe s.id).getD 1 0)
      ((i32ToLe s.id).getD 2 0) ((i32ToLe s.id).getD 3 0) = s.id := by
    simp only [i32ToLe, List.getD_cons_zero, List.getD_cons_succ]
    exact leToI32_i32ToLe s.id h1 h2
  rw [hid]

/-- C3: a record whose serialization fits in a page survives the
serialize → `write_page` → `read_page` → deserialize round trip: the read
buffer is byte-identical to the written one, and deserialization recovers
the record, ignoring the trailing zero padding `to_buffer` added. -/
theorem C3_roundtrip_identity (ctx : DiskMgrCtx) (s : Song) (loc : Nat)
    (initBuf : List Byte) (h1 : -2147483648 ≤ s.id) (h2 : s.id < 2147483648)
    (ht : s.title.length = 50) (ha : s.artist.length = 50)
    (hB : initBuf.length = PAGE_SIZE) :
    ∃ page : List Byte,
      to_buffer (some (encodeSong s)) = ToBufferResult.ok page ∧
      DiskMgr.read_pageF true true (DiskMgr.write_page ctx page loc) initBuf
        loc = some page ∧
      from_buffer page = some s := by
  have hencLen : (encodeSong s).length = 104 := by
    simp [encodeSong, i32ToLe, ht, ha]
  refine ⟨encodeSong s ++ List.replicate (PAGE_SIZE - (encodeSong s).length) 0,
    ?_, ?_, ?_⟩
  · simp only [to_buffer]
    rw [if_pos (by rw [hencLen]; norm_num [PAGE_SIZE])]
  · apply read_after_write _ _ _ _ _ hB
    rw [List.length_append, hencLen, List.length_replicate]
    norm_num [PAGE_SIZE]
  · unfold from_buffer
    exact decodeSong_encodeSong s _ h1 h2 ht ha

/-- C3 witness: the round trip at a concrete record, disk state, and
page id. -/
theorem C3_roundtrip_identity_witness :
    ∃ page : List Byte,
      to_buffer (some (encodeSong
        ⟨5, List.replicate 50 65, List.replicate 50 66⟩))
        = ToBufferResult.ok page ∧
      DiskMgr.read_pageF true true
        (DiskMgr.write_page DiskMgr.create page 2)
        (List.replicate PAGE_SIZE 9) 2 = some page ∧
      from_buffer page
        = some ⟨5, List.replicate 50 65, List.replicate 50 66⟩ :=
  C3_roundtrip_identity DiskMgr.create
    ⟨5, List.replicate 50 65, List.replicate 50 66⟩ 2
    (List.replicate PAGE_SIZE 9) (by norm_num) (by norm_num)
    (by rw [List.length_replicate]) (by rw [List.length_replicate])
    (by rw [List.length_replicate])

/-- C4: a successful `write_page(buffer, page_id)` writes the
`PAGE_SIZE`-byte buffer at byte offset `page_id * PAGE_SIZE`, returns
success only if the durability flush also ran, and increments `num_writes`
and `num_flushes` by exactly one while setting `last_write` to the page
id. -/
theorem C4_write_page_contract (ctx : DiskMgrCtx) (buf : List Byte)
    (loc : Nat) (w s : Bool) (hp : buf.length = PAGE_SIZE) :
    ((DiskMgr.write_pageF w s ctx buf loc).2 = true ↔ w = true ∧ s = true) ∧
    (DiskMgr.write_page ctx buf loc).num_writes = ctx.num_writes + 1 ∧
    (DiskMgr.write_page ctx buf loc).num_flushes = ctx.num_flushes + 1 ∧
    (DiskMgr.write_page ctx buf loc).last_write = (loc : Int) ∧
    ((DiskMgr.write_page ctx buf loc).file.drop (loc * PAGE_SIZE)).take
      PAGE_SIZE = buf := by
  refine ⟨?_, ?_, ?_, ?_, ?_⟩
  · cases w <;> cases s <;> simp [DiskMgr.write_pageF]
  · simp [DiskMgr.write_page, DiskMgr.write_pageF]
  · simp [DiskMgr.write_page, DiskMgr.write_pageF]
  · simp [DiskMgr.write_page, DiskMgr.write_pageF]
  · rw [write_page_file, write_bytes_drop, ← hp, List.take_left]

/-- C4 witness: the contract at a concrete page write. -/
theorem C4_write_page_contract_witness :
    ((DiskMgr.write_pageF true true DiskMgr.create Page.empty 3).2 = true ↔
      true = true ∧ true = true) ∧
    (DiskMgr.write_page DiskMgr.create Page.empty 3).num_writes
      = DiskMgr.create.num_writes + 1 ∧
    (DiskMgr.write_page DiskMgr.create Page.empty 3).num_flushes
      = DiskMgr.create.num_flushes + 1 ∧
    (DiskMgr.write_page DiskMgr.create Page.empty 3).last_write = (3 : Int) ∧
    ((DiskMgr.write_page DiskMgr.create Page.empty 3).file.drop
      (3 * PAGE_SIZE)).take PAGE_SIZE = Page.empty :=
  C4_write_page_contract DiskMgr.create Page.empty 3 true true
    (by simp [Page.empty])

/-- C5 counterexample: when the flush step (`sync_all`) fails on a fresh
disk manager, `write_page` returns an error but `num_writes` has already
been incremented — the state is not the pre-call state, contradicting the
claim that a failing call leaves the disk manager unchanged. -/
theorem C5_counterexample :
    (DiskMgr.write_pageF true false DiskMgr.create Page.empty 0).2 = false ∧
    (DiskMgr.write_pageF true false DiskMgr.create Page.empty 0).1.num_writes
      ≠ DiskMgr.create.num_writes := by
  constructor
  · simp [DiskMgr.write_pageF]
  · simp [DiskMgr.write_pageF, DiskMgr.create]

/-- C5 amended: a failure of the seek/write step leaves the state
unchanged, and `read_page` never touches the counters; but a failure of
the flush step of `write_page`/`append_page` leaves `num_writes` already
incremented (no rollback) while `num_flushes` and `last_write` keep their
prior values. -/
theorem C5_error_bookkeeping (ctx : DiskMgrCtx) (buf initBuf : List Byte)
    (loc : Nat) (s : Bool) :
    DiskMgr.write_pageF false s ctx buf loc = (ctx, false) ∧
    ((DiskMgr.write_pageF true false ctx buf loc).1.num_writes
        = ctx.num_writes + 1 ∧
      (DiskMgr.write_pageF true false ctx buf loc).1.num_flushes
        = ctx.num_flushes ∧
      (DiskMgr.write_pageF true false ctx buf loc).1.last_write
        = ctx.last_write ∧
      (DiskMgr.write_pageF true false ctx buf loc).2 = false) ∧
    DiskMgr.append_pageF false s ctx buf = (ctx, none) ∧
    ((DiskMgr.append_pageF true false ctx buf).1.num_writes
        = ctx.num_writes + 1 ∧
      (DiskMgr.append_pageF true false ctx buf).1.num_flushes
        = ctx.num_flushes ∧
      (DiskMgr.append_pageF true false ctx buf).1.last_write
        = ctx.last_write ∧
      (DiskMgr.append_pageF true false ctx buf).2 = none) ∧
    DiskMgr.read_pageF false s ctx initBuf loc = none ∧
    DiskMgr.read_pageF true false ctx initBuf loc = none := by
  refine ⟨?_, ⟨?_, ?_, ?_, ?_⟩, ?_, ⟨?_, ?_, ?_, ?_⟩, ?_, ?_⟩ <;>
    simp [DiskMgr.write_pageF, DiskMgr.append_pageF, DiskMgr.read_pageF]

/-- C6 counterexample: reading page 0 of the freshly created (empty) file
succeeds — `read` past EOF returns zero bytes and that is not an error —
and the caller's buffer keeps its prior contents, contradicting the claim
that `read_page` returns an I/O error when the page id is at or beyond the
file length. -/
theorem C6_counterexample :
    DiskMgr.create.file.length = 0 ∧
    DiskMgr.read_pageF true true DiskMgr.create (List.replicate PAGE_SIZE 1) 0
      = some (List.replicate PAGE_SIZE 1) := by
  constructor
  · rfl
  · simp [DiskMgr.read_pageF, read_bytes, DiskMgr.create]

/-- C6 amended: `read_page` seeks to `page_id * PAGE_SIZE` and issues a
single read; it returns an I/O error exactly when the seek or the read
itself fails, and a page id at or beyond the current file length is *not*
such a failure — the call succeeds, reads fewer than `PAGE_SIZE` bytes
(zero at or past EOF), and never zero-fills: bytes beyond those read keep
the buffer's prior contents. -/
theorem C6_read_page_amended (ctx : DiskMgrCtx) (buf : List Byte)
    (loc : Nat) (sk rd : Bool) :
    (DiskMgr.read_pageF sk rd ctx buf loc = none ↔
      (sk = false ∨ rd = false)) ∧
    (ctx.file.length ≤ loc * PAGE_SIZE →
      DiskMgr.read_pageF true true ctx buf loc = some buf) ∧
    DiskMgr.read_pageF true true ctx buf loc
      = some ((ctx.file.drop (loc * PAGE_SIZE)).take buf.length ++
          buf.drop ((ctx.file.drop (loc * PAGE_SIZE)).take buf.length).length)
    := by
  refine ⟨?_, ?_, ?_⟩
  · cases sk <;> cases rd <;> simp [DiskMgr.read_pageF]
  · intro h
    have hnil : ctx.file.drop (loc * PAGE_SIZE) = [] :=
      List.drop_eq_nil_of_le h
    simp [DiskMgr.read_pageF, read_bytes, hnil]
  · simp [DiskMgr.read_pageF, read_bytes]

/-- C6 witness: the amended behavior at a concrete out-of-range read. -/
theorem C6_read_page_amended_witness :
    ((DiskMgr.read_pageF true true DiskMgr.create (List.replicate PAGE_SIZE 2)
        3 = none) ↔ (true = false ∨ true = false)) ∧
    (DiskMgr.create.file.length ≤ 3 * PAGE_SIZE →
      DiskMgr.read_pageF true true DiskMgr.create (List.replicate PAGE_SIZE 2)
        3 = some (List.replicate PAGE_SIZE 2)) ∧
    DiskMgr.read_pageF true true DiskMgr.create (List.replicate PAGE_SIZE 2) 3
      = some ((DiskMgr.create.file.drop (3 * PAGE_SIZE)).take
          (List.replicate PAGE_SIZE 2).length ++
          (List.replicate PAGE_SIZE 2).drop
            ((DiskMgr.create.file.drop (3 * PAGE_SIZE)).take
              (List.replicate PAGE_SIZE 2).length).length) :=
  C6_read_page_amended DiskMgr.create (List.replicate PAGE_SIZE 2) 3 true true

/-- C10: `to_buffer` returns the encoding zero-padded to `PAGE_SIZE` when
the encoding fits, and panics (out-of-bounds slice `buf[..len]`) instead of
returning `None` when the encoding is longer than `PAGE_SIZE`. -/
theorem C10_to_buffer_boundary (e : List Byte) :
    (e.length ≤ PAGE_SIZE →
      to_buffer (some e)
        = ToBufferResult.ok (e ++ List.replicate (PAGE_SIZE - e.length) 0)) ∧
    (PAGE_SIZE < e.length → to_buffer (some e) = ToBufferResult.panicked) := by
  constructor
  · intro h
    simp only [to_buffer]
    rw [if_pos h]
  · intro h
    simp only [to_buffer]
    rw [if_neg (by omega)]

/-- C10 witness: the fits case at a 1-byte encoding and the panic case at a
`PAGE_SIZE + 1`-byte encoding. -/
theorem C10_to_buffer_boundary_witness :
    to_buffer (some [7])
      = ToBufferResult.ok ([7] ++ List.replicate (PAGE_SIZE - 1) 0) ∧
    to_buffer (some (List.replicate (PAGE_SIZE + 1) 1))
      = ToBufferResult.panicked :=
  ⟨(C10_to_buffer_boundary [7]).1 (by norm_num [PAGE_SIZE]),
   (C10_to_buffer_boundary (List.replicate (PAGE_SIZE + 1) 1)).2
     (by rw [List.length_replicate]; omega)⟩

/-! ## LRU-K victim selection -/

theorem lruKeyLt_iff (a b : Nat × Nat × Int) :
    lruKeyLt a b = true ↔
      (a.1 < b.1 ∨ (a.1 = b.1 ∧
        (a.2.1 < b.2.1 ∨ (a.2.1 = b.2.1 ∧ a.2.2 < b.2.2)))) := by
  simp [lruKeyLt]

theorem lruKeyLt_eq_false_iff (a b : Nat × Nat × Int) :
    lruKeyLt a b = false ↔
      ¬ (a.1 < b.1 ∨ (a.1 = b.1 ∧
        (a.2.1 < b.2.1 ∨ (a.2.1 = b.2.1 ∧ a.2.2 < b.2.2)))) := by
  rw [← lruKeyLt_iff]
  cases lruKeyLt a b <;> simp

theorem lruKeyLt_irrefl (a : Nat × Nat × Int) : lruKeyLt a a = false := by
  rw [lruKeyLt_eq_false_iff]
  omega

theorem lruKeyLt_trans {a b c : Nat × Nat × Int}
    (h1 : lruKeyLt a b = true) (h2 : lruKeyLt b c = true) :
    lruKeyLt a c = true := by
  rw [lruKeyLt_iff] at h1 h2 ⊢
  omega

theorem lruKeyLt_false_trans {a b c : Nat × Nat × Int}
    (h1 : lruKeyLt a b = false) (h2 : lruKeyLt b c = false) :
    lruKeyLt a c = false := by
  rw [lruKeyLt_eq_false_iff] at h1 h2 ⊢
  omega

theorem foldl_evictStep_some (k : Nat) (l : List FrameEntry)
    (a : FrameEntry) :
    ∃ c, l.foldl (evictStep k) (some a) = some c := by
  induction l generalizing a with
  | nil => exact ⟨a, rfl⟩
  | cons e rest ih =>
    simp only [List.foldl, evictStep]
    by_cases h : lruKeyLt (lruKey k e) (lruKey k a) = true
    · rw [if_pos h]; exact ih e
    · rw [if_neg h]; exact ih a

theorem foldl_evictStep_spec (k : Nat) (l : List FrameEntry) :
    ∀ (acc : Option FrameEntry) (c : FrameEntry),
      l.foldl (evictStep k) acc = some c →
      (acc = some c ∨ c ∈ l) ∧
      (∀ e ∈ l, lruKeyLt (lruKey k e) (lruKey k c) = false) ∧
      (∀ d, acc = some d → lruKeyLt (lruKey k d) (lruKey k c) = false) := by
  induction l with
  | nil =>
    intro acc c h
    simp only [List.foldl] at h
    refine ⟨Or.inl h, by simp, fun d hd => ?_⟩
    rw [hd] at h
    cases h
    exact lruKeyLt_irrefl _
  | cons e rest ih =>
    intro acc c h
    simp only [List.foldl] at h
    obtain ⟨ihmem, ihrest, ihacc⟩ := ih (evictStep k acc e) c h
    have hstep : ∀ d, evictStep k acc e = some d →
        d = e ∨ (acc = some d ∧ lruKeyLt (lruKey k e) (lruKey k d) = false) := by
      intro d hd
      cases acc with
      | none => simp [evictStep] at hd; exact Or.inl hd.symm
      | some a0 =>
        simp only [evictStep] at hd
        by_cases hlt : lruKeyLt (lruKey k e) (lruKey k a0) = true
        · rw [if_pos hlt] at hd; cases hd; exact Or.inl rfl
        · rw [if_neg hlt] at hd; cases hd
          exact Or.inr ⟨rfl, by simpa using hlt⟩
    have hlt_e_c : lruKeyLt (lruKey k e) (lruKey k c) = false := by
      cases acc with
      | none => exact ihacc e (by simp [evictStep])
      | some a0 =>
        by_cases hlt : lruKeyLt (lruKey k e) (lruKey k a0) = true
        · exact ihacc e (by simp [evictStep, hlt])
        · have h1 : lruKeyLt (lruKey k e) (lruKey k a0) = false := by
            simpa using hlt
          have h2 : lruKeyLt (lruKey k a0) (lruKey k c) = false :=
            ihacc a0 (by simp [evictStep, hlt])
          exact lruKeyLt_false_trans h1 h2
    refine ⟨?_, ?_, ?_⟩
    · rcases ihmem with hm | hm
      · rcases hstep c hm with he | ⟨ha, _⟩
        · exact Or.inr (by simp [he])
        · exact Or.inl ha
      · exact Or.inr (List.mem_cons_of_mem _ hm)
    · intro e' he'
      rcases List.mem_cons.mp he' with rfl | hmem
      · exact hlt_e_c
      · exact ihrest e' hmem
    · intro d hd
      cases acc with
      | none => cases hd
      | some a0 =>
        cases hd
        by_cases hlt : lruKeyLt (lruKey k e) (lruKey k d) = true
        · have h3 := ihacc e (by simp [evictStep, hlt])
          by_contra hdc
          rw [Bool.not_eq_false] at hdc
          have h4 := lruKeyLt_trans hlt hdc
          simp [h4] at h3
        · exact ihacc d (by simp [evictStep, hlt])

theorem evict_spec (k : Nat) (frames : List FrameEntry) (c : FrameEntry)
    (h : evict k frames = some c) :
    c ∈ frames ∧ c.evictable = true ∧
    (∀ e ∈ frames, e.evictable = true →
      lruKeyLt (lruKey k e) (lruKey k c) = false) := by
  obtain ⟨hmem, hmin, _⟩ :=
    foldl_evictStep_spec k (frames.filter (fun e => e.evictable)) none c h
  rcases hmem with hnone | hmem
  · cases hnone
  · have := List.mem_filter.mp hmem
    refine ⟨this.1, by simpa using this.2, fun e he hev => ?_⟩
    exact hmin e (List.mem_filter.mpr ⟨he, by simp [hev]⟩)

/-- C2: with K = 2, whenever some evictable frame has fewer than 2
recorded accesses (k-distance = +∞) and some evictable frame has 2 or
more, `evict` selects a victim with fewer than 2 accesses, regardless of
how recent its single access is; among the +∞ frames the victim has the
oldest most-recent-access timestamp, ties broken by lowest frame id. -/
theorem C2_lruk_under_accessed_first (frames : List FrameEntry)
    (a b : FrameEntry) (ha : a ∈ frames) (hae : a.evictable = true)
    (hal : a.history.length < 2) (_hb : b ∈ frames)
    (_hbe : b.evictable = true) (_hbl : 2 ≤ b.history.length) :
    ∃ c, evict 2 frames = some c ∧ c.evictable = true ∧
      c.history.length < 2 ∧
      ∀ d ∈ frames, d.evictable = true → d.history.length < 2 →
        c.history.headD 0 < d.history.headD 0 ∨
        (c.history.headD 0 = d.history.headD 0 ∧ c.fid ≤ d.fid) := by
  have hmemf : a ∈ frames.filter (fun e => e.evictable) :=
    List.mem_filter.mpr ⟨ha, by simp [hae]⟩
  obtain ⟨hd, tl, hft⟩ :=
    List.exists_cons_of_ne_nil (List.ne_nil_of_mem hmemf)
  obtain ⟨c, hc⟩ : ∃ c, evict 2 frames = some c := by
    unfold evict
    rw [hft]
    simp only [List.foldl, evictStep]
    exact foldl_evictStep_some 2 tl hd
  obtain ⟨hcmem, hcev, hcmin⟩ := evict_spec 2 frames c hc
  have hcinf : c.history.length < 2 := by
    by_contra hfin
    have hmin := hcmin a ha hae
    rw [lruKeyLt_eq_false_iff] at hmin
    apply hmin
    have hc2 : ¬ c.history.length < 2 := by omega
    simp [lruKey, hal, hc2]
  refine ⟨c, hc, hcev, hcinf, fun d hdm hdev hdl => ?_⟩
  have hmin := hcmin d hdm hdev
  rw [lruKeyLt_eq_false_iff] at hmin
  simp [lruKey, hdl, hcinf] at hmin
  rw [List.headD_eq_head?, List.headD_eq_head?]
  omega

/-- C2 witness: a frame accessed once long ago is evicted before a frame
accessed twice recently. -/
theorem C2_lruk_under_accessed_first_witness :
    ∃ c, evict 2 [⟨4, [9, 8], true⟩, ⟨7, [3], true⟩] = some c ∧
      c.evictable = true ∧ c.history.length < 2 ∧
      ∀ d ∈ [(⟨4, [9, 8], true⟩ : FrameEntry), ⟨7, [3], true⟩],
        d.evictable = true → d.history.length < 2 →
        c.history.headD 0 < d.history.headD 0 ∨
        (c.history.headD 0 = d.history.headD 0 ∧ c.fid ≤ d.fid) :=
  C2_lruk_under_accessed_first _ ⟨7, [3], true⟩ ⟨4, [9, 8], true⟩
    (by simp) rfl (by simp) (by simp) rfl (by simp)

/-! ## Buffer pool: protocol misuse (C7) -/

/-- C7: every protocol-misuse call — `unpin_page` on a page whose pin
count is already zero, `flush_page` or `delete_page` on a non-resident
page, or `delete_page` on a pinned page — returns a `false` result rather
than crashing, and leaves the frames, page table and free list exactly
unchanged. -/
theorem C7_misuse_reported_not_crash (s : PoolState) (pid : Int)
    (b : Bool) :
    (lookupPT s.page_table pid = none →
      unpin_page pid b s = (s, false) ∧
      flush_page pid s = (s, false) ∧
      delete_page pid s = (s, false)) ∧
    (∀ fid, lookupPT s.page_table pid = some fid →
      (pinOf s fid = 0 → unpin_page pid b s = (s, false)) ∧
      (0 < pinOf s fid → delete_page pid s = (s, false))) := by
  constructor
  · intro h
    refine ⟨?_, ?_, ?_⟩ <;> simp [unpin_page, flush_page, delete_page, h]
  · intro fid h
    constructor
    · intro hp
      simp [unpin_page, h, hp]
    · intro hp
      simp [delete_page, h, hp]

/-- C7 witness: misuse calls on a fresh pool (nothing resident) and a
deletion attempt on a pinned page. -/
theorem C7_misuse_reported_not_crash_witness :
    (unpin_page 42 false initPool = (initPool, false) ∧
      flush_page 42 initPool = (initPool, false) ∧
      delete_page 42 initPool = (initPool, false)) ∧
    delete_page 0 pinnedPool = (pinnedPool, false) :=
  ⟨(C7_misuse_reported_not_crash initPool 42 false).1 rfl,
   ((C7_misuse_reported_not_crash pinnedPool 0 false).2 1 rfl).2
     (by decide)⟩

/-! ## Disk-manager lock discipline (C9) -/

/-- C9 counterexample: invoked with the lock free, every disk-manager
operation touches the protected state (file handle, counters) at lock
depth zero — `inner()` dereferences `data_ptr` without latching — and
`BufferPool::alloc_page` really does invoke `append_page` that way,
holding only the pool's reader lock.  This contradicts the claim that
every operation executes while holding the disk manager's exclusive
lock. -/
theorem C9_counterexample :
    touchesLocked read_page_events 0 = false ∧
    touchesLocked write_page_events 0 = false ∧
    touchesLocked append_page_events 0 = false ∧
    touchesLocked alloc_page_disk_events 0 = false :=
  ⟨rfl, rfl, rfl, rfl⟩

/-- C9 amended: the disk-manager operations acquire no lock themselves —
they reach the handle and counters through the raw `data_ptr` pointer —
so serialization holds only when the caller wraps the call in
`latch`/`unlatch`, as the repository's tests do (`BufferPool::alloc_page`
does not). -/
theorem C9_lock_discipline_amended :
    (DiskEv.acquire ∉ read_page_events ∧
     DiskEv.acquire ∉ write_page_events ∧
     DiskEv.acquire ∉ append_page_events) ∧
    (touchesLocked (DiskEv.acquire :: read_page_events ++ [DiskEv.release])
        0 = true ∧
     touchesLocked (DiskEv.acquire :: write_page_events ++ [DiskEv.release])
        0 = true ∧
     touchesLocked (DiskEv.acquire :: append_page_events ++ [DiskEv.release])
        0 = true) := by
  refine ⟨⟨?_, ?_, ?_⟩, ?_, ?_, ?_⟩ <;> decide

/-! ## Buffer pool: free-list/page-table invariant (C8) -/

theorem lookupPT_eq_none_iff (pt : List (Int × Int)) (pid : Int) :
    lookupPT pt pid = none ↔ ∀ e ∈ pt, e.1 ≠ pid := by
  simp [lookupPT, List.find?_eq_none]

theorem lookupPT_mem {pt : List (Int × Int)} {pid fid : Int}
    (h : lookupPT pt pid = some fid) : (pid, fid) ∈ pt := by
  unfold lookupPT at h
  cases hf : pt.find? (fun e => e.1 == pid) with
  | none => rw [hf] at h; cases h
  | some e =>
    rw [hf] at h
    have hmem := List.mem_of_find?_eq_some hf
    have hp : e.1 = pid := by simpa using List.find?_some hf
    have h2 : e.2 = fid := by simpa using h
    have he : e = (pid, fid) := by
      obtain ⟨e1, e2⟩ := e
      simp_all
    rwa [he] at hmem

theorem poolInv_of_eq {s t : PoolState} (h : PoolInv s)
    (hf : t.free_list = s.free_list) (hp : t.page_table = s.page_table) :
    PoolInv t := by
  unfold PoolInv at h ⊢
  rw [hf, hp]
  exact h

theorem unpin_page_fields (pid : Int) (b : Bool) (s : PoolState) :
    (unpin_page pid b s).1.free_list = s.free_list ∧
    (unpin_page pid b s).1.page_table = s.page_table := by
  unfold unpin_page
  cases lookupPT s.page_table pid with
  | none => exact ⟨rfl, rfl⟩
  | some fid =>
    by_cases h : pinOf s fid = 0 <;> simp [h]

theorem flush_page_fields (pid : Int) (s : PoolState) :
    (flush_page pid s).1.free_list = s.free_list ∧
    (flush_page pid s).1.page_table = s.page_table := by
  unfold flush_page
  cases lookupPT s.page_table pid with
  | none => exact ⟨rfl, rfl⟩
  | some fid => exact ⟨rfl, rfl⟩

theorem fetch_page_hit_fields (pid : Int) (s : PoolState) :
    (fetch_page_hit pid s).free_list = s.free_list ∧
    (fetch_page_hit pid s).page_table = s.page_table := by
  unfold fetch_page_hit
  cases lookupPT s.page_table pid with
  | none => exact ⟨rfl, rfl⟩
  | some fid => exact ⟨rfl, rfl⟩

theorem poolInv_init : PoolInv initPool := by
  refine ⟨by decide, by decide, by simp [initPool], by simp [initPool],
    by simp [initPool], ?_⟩
  intro fid h1 h2
  have hbp : (BUFFER_POOL_SIZE : Int) = 50 := by norm_num [BUFFER_POOL_SIZE]
  have h2' : fid ≤ 50 := by omega
  constructor
  · intro _
    rintro ⟨p, hp⟩
    exact absurd hp (List.not_mem_nil _)
  · intro _
    show fid ∈ (List.range BUFFER_POOL_SIZE).map (fun (i : Nat) => (i : Int) + 1)
    refine List.mem_map.mpr ⟨(fid - 1).toNat, List.mem_range.mpr ?_, ?_⟩
    · show (fid - 1).toNat < 50
      omega
    · show ((fid - 1).toNat : Int) + 1 = fid
      omega

theorem pt_key_unique {pt : List (Int × Int)}
    (ndk : (pt.map Prod.fst).Nodup) {a b : Int × Int}
    (ha : a ∈ pt) (hb : b ∈ pt) (h : a.1 = b.1) : a = b :=
  List.inj_on_of_nodup_map ndk ha hb h

theorem pt_val_unique {pt : List (Int × Int)}
    (ndv : (pt.map Prod.snd).Nodup) {a b : Int × Int}
    (ha : a ∈ pt) (hb : b ∈ pt) (h : a.2 = b.2) : a = b :=
  List.inj_on_of_nodup_map ndv ha hb h

theorem poolInv_insert_shape {s t : PoolState} (inv : PoolInv s)
    {pid fid : Int} {rest : List Int}
    (hfree : s.free_list = fid :: rest)
    (hpt : lookupPT s.page_table pid = none)
    (hf : t.free_list = rest)
    (hq : t.page_table = (pid, fid) :: s.page_table) : PoolInv t := by
  obtain ⟨nd, rng, ndk, ndv, vrng, hiff⟩ := inv
  have hndc := List.nodup_cons.mp (hfree ▸ nd)
  have hfid_mem : fid ∈ s.free_list := by
    rw [hfree]; exact List.mem_cons_self _ _
  have hfid_rng := rng fid hfid_mem
  have hfid_unmapped : ¬ ∃ p, (p, fid) ∈ s.page_table :=
    (hiff fid hfid_rng.1 hfid_rng.2).mp hfid_mem
  have hpid_notkey : ∀ e ∈ s.page_table, e.1 ≠ pid :=
    (lookupPT_eq_none_iff _ _).mp hpt
  unfold PoolInv
  rw [hf, hq]
  refine ⟨hndc.2, ?_, ?_, ?_, ?_, ?_⟩
  · intro g hg
    exact rng g (by rw [hfree]; exact List.mem_cons_of_mem _ hg)
  · rw [List.map_cons]
    refine List.nodup_cons.mpr ⟨?_, ndk⟩
    intro hk
    obtain ⟨e, he, hek⟩ := List.mem_map.mp hk
    exact hpid_notkey e he hek
  · rw [List.map_cons]
    refine List.nodup_cons.mpr ⟨?_, ndv⟩
    intro hv
    obtain ⟨e, he, hev⟩ := List.mem_map.mp hv
    apply hfid_unmapped
    refine ⟨e.1, ?_⟩
    have : (e.1, fid) = e := by
      obtain ⟨e1, e2⟩ := e
      simp_all
    rwa [this]
  · intro e he
    rcases List.mem_cons.mp he with rfl | he'
    · exact hfid_rng
    · exact vrng e he'
  · intro g h1 h2
    by_cases hg : g = fid
    · subst hg
      constructor
      · intro hmem
        exact absurd hmem hndc.1
      · intro hno
        exact absurd ⟨pid, List.mem_cons_self _ _⟩ hno
    · have hmr : g ∈ rest ↔ g ∈ s.free_list := by
        rw [hfree, List.mem_cons]
        constructor
        · exact Or.inr
        · rintro (h | h)
          · exact absurd h hg
          · exact h
      rw [hmr, hiff g h1 h2]
      constructor
      · intro hno h'
        obtain ⟨p, hp⟩ := h'
        rcases List.mem_cons.mp hp with heq | hmem
        · exact hg (congrArg Prod.snd heq)
        · exact hno ⟨p, hmem⟩
      · intro hno h'
        obtain ⟨p, hp⟩ := h'
        exact hno ⟨p, List.mem_cons_of_mem _ hp⟩

theorem poolInv_evict_shape {s t : PoolState} (inv : PoolInv s)
    {pid oldPid fid : Int}
    (hfree : s.free_list = [])
    (hmem : (oldPid, fid) ∈ s.page_table)
    (hpt : lookupPT s.page_table pid = none)
    (hf : t.free_list = s.free_list)
    (hq : t.page_table
      = (pid, fid) :: s.page_table.filter (fun e => ¬ e.1 == oldPid)) :
    PoolInv t := by
  obtain ⟨nd, rng, ndk, ndv, vrng, hiff⟩ := inv
  have hpid_notkey : ∀ e ∈ s.page_table, e.1 ≠ pid :=
    (lookupPT_eq_none_iff _ _).mp hpt
  have hfid_rng := vrng _ hmem
  have hfsub :
      (s.page_table.filter (fun e => ¬ e.1 == oldPid)).Sublist
        s.page_table := List.filter_sublist _
  unfold PoolInv
  rw [hf, hq]
  refine ⟨nd, rng, ?_, ?_, ?_, ?_⟩
  · rw [List.map_cons]
    refine List.nodup_cons.mpr ⟨?_, ndk.sublist (hfsub.map Prod.fst)⟩
    intro hk
    obtain ⟨e, he, hek⟩ := List.mem_map.mp hk
    exact hpid_notkey e (List.mem_filter.mp he).1 hek
  · rw [List.map_cons]
    refine List.nodup_cons.mpr ⟨?_, ndv.sublist (hfsub.map Prod.snd)⟩
    intro hv
    obtain ⟨e, he, hev⟩ := List.mem_map.mp hv
    obtain ⟨hein, hflt⟩ := List.mem_filter.mp he
    have : e = (oldPid, fid) := pt_val_unique ndv hein hmem (by simpa using hev)
    rw [this] at hflt
    simp at hflt
  · intro e he
    rcases List.mem_cons.mp he with rfl | he'
    · exact hfid_rng
    · exact vrng e (List.mem_filter.mp he').1
  · intro g h1 h2
    have hmapped : ∃ p, (p, g) ∈ s.page_table := by
      by_contra hno
      have := (hiff g h1 h2).mpr hno
      rw [hfree] at this
      exact absurd this (List.not_mem_nil _)
    rw [hfree]
    constructor
    · intro hmem'
      exact absurd hmem' (List.not_mem_nil _)
    · intro hno
      exfalso
      apply hno
      by_cases hgf : g = fid
      · subst hgf
        exact ⟨pid, List.mem_cons_self _ _⟩
      · obtain ⟨p, hp⟩ := hmapped
        have hpne : p ≠ oldPid := by
          intro hpe
          subst hpe
          have := pt_key_unique ndk hp hmem rfl
          exact hgf (congrArg Prod.snd this)
        refine ⟨p, List.mem_cons_of_mem _ (List.mem_filter.mpr ⟨hp, ?_⟩)⟩
        simp [hpne]

theorem poolInv_delete_shape {s t : PoolState} (inv : PoolInv s)
    {pid fid : Int}
    (hmem : (pid, fid) ∈ s.page_table)
    (hf : t.free_list = s.free_list ++ [fid])
    (hq : t.page_table = s.page_table.filter (fun e => ¬ e.1 == pid)) :
    PoolInv t := by
  obtain ⟨nd, rng, ndk, ndv, vrng, hiff⟩ := inv
  have hfid_rng := vrng _ hmem
  have hfid_notfree : fid ∉ s.free_list := by
    intro hmemf
    exact ((hiff fid hfid_rng.1 hfid_rng.2).mp hmemf) ⟨pid, hmem⟩
  unfold PoolInv
  rw [hf, hq]
  refine ⟨?_, ?_, ?_, ?_, ?_, ?_⟩
  · rw [List.nodup_append]
    refine ⟨nd, List.nodup_singleton _, ?_⟩
    intro a ha hb
    have : a = fid := by simpa using hb
    rw [this] at ha
    exact hfid_notfree ha
  · intro g hg
    rcases List.mem_append.mp hg with h | h
    · exact rng g h
    · have : g = fid := by simpa using h
      rw [this]
      exact hfid_rng
  · exact ndk.sublist ((List.filter_sublist _).map Prod.fst)
  · exact ndv.sublist ((List.filter_sublist _).map Prod.snd)
  · intro e he
    exact vrng e (List.mem_filter.mp he).1
  · intro g h1 h2
    by_cases hgf : g = fid
    · subst hgf
      refine iff_of_true (List.mem_append.mpr (Or.inr ?_)) ?_
      · exact List.mem_singleton.mpr rfl
      · intro h'
        obtain ⟨q, hq'⟩ := h'
        obtain ⟨hqin, hqf⟩ := List.mem_filter.mp hq'
        have heq : (q, g) = (pid, g) := pt_val_unique ndv hqin hmem rfl
        have hq_pid : q = pid := congrArg Prod.fst heq
        rw [hq_pid] at hqf
        simp at hqf
    · have hLHS : g ∈ s.free_list ++ [fid] ↔ g ∈ s.free_list := by
        rw [List.mem_append]
        constructor
        · rintro (h | h)
          · exact h
          · exact absurd (by simpa using h) hgf
        · exact Or.inl
      rw [hLHS, hiff g h1 h2]
      constructor
      · intro hno h'
        obtain ⟨q, hq'⟩ := h'
        exact hno ⟨q, (List.mem_filter.mp hq').1⟩
      · intro hno h'
        obtain ⟨q, hq'⟩ := h'
        apply hno
        refine ⟨q, List.mem_filter.mpr ⟨hq', ?_⟩⟩
        have hqne : q ≠ pid := by
          intro he
          subst he
          have := pt_key_unique ndk hq' hmem rfl
          exact hgf (congrArg Prod.snd this)
        simp [hqne]

theorem reachable_inv (s : PoolState) (h : Reachable s) : PoolInv s := by
  induction h with
  | create => exact poolInv_init
  | newPageFree s pid fid rest page _ hfree hpt ih =>
    exact poolInv_insert_shape ih hfree hpt rfl rfl
  | newPageEvict s pid oldPid fid page _ hfree hmem hpt ih =>
    exact poolInv_evict_shape ih hfree hmem hpt rfl rfl
  | fetchHit s pid _ ih =>
    exact poolInv_of_eq ih (fetch_page_hit_fields pid s).1
      (fetch_page_hit_fields pid s).2
  | unpinPage s pid b _ ih =>
    exact poolInv_of_eq ih (unpin_page_fields pid b s).1
      (unpin_page_fields pid b s).2
  | flushPage s pid _ ih =>
    exact poolInv_of_eq ih (flush_page_fields pid s).1
      (flush_page_fields pid s).2
  | deletePage s pid _ ih =>
    rcases hlk : lookupPT s.page_table pid with _ | fid
    · exact poolInv_of_eq ih (by simp [delete_page, hlk]) (by simp [delete_page, hlk])
    · by_cases hp : 0 < pinOf s fid
      · exact poolInv_of_eq ih (by simp [delete_page, hlk, hp])
          (by simp [delete_page, hlk, hp])
      · exact poolInv_delete_shape ih (lookupPT_mem hlk)
          (by simp [delete_page, hlk, hp]) (by simp [delete_page, hlk, hp])

/-- C8: immediately after `BufferPool::create` the free list is exactly
the FIFO sequence `1, 2, …, BUFFER_POOL_SIZE` (1 at the front, 50 at the
back), and in every reachable pool state a frame id in range is in the
free list exactly when it is not mapped by the page table. -/
theorem C8_free_list_invariant :
    initPool.free_list.length = BUFFER_POOL_SIZE ∧
    (∀ i ∈ List.range BUFFER_POOL_SIZE,
      initPool.free_list.getD i 0 = (i : Int) + 1) ∧
    (∀ s, Reachable s → ∀ fid : Int,
      1 ≤ fid → fid ≤ (BUFFER_POOL_SIZE : Int) →
      (fid ∈ s.free_list ↔ ¬ ∃ p, (p, fid) ∈ s.page_table)) := by
  refine ⟨by decide, by decide, ?_⟩
  intro s hs fid h1 h2
  exact (reachable_inv s hs).2.2.2.2.2 fid h1 h2

/-- C8 witness: the invariant evaluated in the initial state at frame
id 3. -/
theorem C8_free_list_invariant_witness :
    (3 : Int) ∈ initPool.free_list ↔
      ¬ ∃ p, (p, (3 : Int)) ∈ initPool.page_table :=
  C8_free_list_invariant.2.2 initPool Reachable.create 3 (by norm_num)
    (by norm_num [BUFFER_POOL_SIZE])

end StorageCore
